import Mathlib

/- Formal model of the dune-sea-diagnostics repository: the appointment
   server (the unnamed Node server file) and the client scheduler
   (src/app.js).  JavaScript numbers are modelled as `JsNum` (NaN, the two
   infinities, or a finite rational); `Date.parse` is an abstract parameter
   `parse : String → Option Int` returning `some` exactly on the strings it
   maps to a finite timestamp; server nondeterminism (`makeId`, `nowStamp`,
   `saveUploadedImage`) is an explicit environment `Env`. -/

namespace DuneSea

/-- JavaScript numbers as observed by this code: NaN, ±Infinity, or a finite
value (modelled as a rational). -/
inductive JsNum
  | nan
  | posInf
  | negInf
  | fin (q : ℚ)
  deriving DecidableEq

/-- JavaScript `Math.min` on two numbers: NaN propagates, otherwise the
smaller value with `-Infinity < finite < Infinity`. -/
def jsMin : JsNum → JsNum → JsNum
  | .nan, _ => .nan
  | _, .nan => .nan
  | .negInf, _ => .negInf
  | _, .negInf => .negInf
  | .posInf, b => b
  | a, .posInf => a
  | .fin a, .fin b => .fin (min a b)

/-- JavaScript `Math.max` on two numbers: NaN propagates, otherwise the
larger value. -/
def jsMax : JsNum → JsNum → JsNum
  | .nan, _ => .nan
  | _, .nan => .nan
  | .posInf, _ => .posInf
  | _, .posInf => .posInf
  | .negInf, b => b
  | a, .negInf => a
  | .fin a, .fin b => .fin (max a b)

/-- JavaScript `+` on two numbers: NaN propagates, `Infinity + -Infinity`
is NaN. -/
def jsAdd : JsNum → JsNum → JsNum
  | .nan, _ => .nan
  | _, .nan => .nan
  | .posInf, .negInf => .nan
  | .negInf, .posInf => .nan
  | .posInf, _ => .posInf
  | _, .posInf => .posInf
  | .negInf, _ => .negInf
  | _, .negInf => .negInf
  | .fin a, .fin b => .fin (a + b)

/-- An appointment record as stored in `BOOKED` / `PENDING` (the shape
produced by `normalizeAppt` in the server file). -/
structure Appt where
  id : String
  startISO : String
  slots : JsNum
  name : String
  phone : String
  email : String
  serviceType : String
  appliance : String
  notes : String
  status : String
  createdISO : String
  deriving DecidableEq

/-- The request payload read by `normalizeAppt`.  String fields hold the
value of `String(a?.f || "")` (so a falsy field is `""`); `slots` holds
`some` of the coerced number when `a?.slots` is truthy, else `none`;
`createdISO`/`id` equal to `""` mean the field was falsy and the server
generates them. -/
structure ApptPayload where
  id : String
  startISO : String
  slots : Option JsNum
  name : String
  phone : String
  email : String
  serviceType : String
  appliance : String
  notes : String
  createdISO : String
  deriving DecidableEq

/-- Ambient server nondeterminism, passed explicitly: the id `makeId()`
would mint for this call, the timestamp `nowStamp()` would return, and the
`/uploads/...` path `saveUploadedImage` would produce from
(dataUrl, filenameHint, id, prefix). -/
structure Env where
  genId : String
  now : String
  saveImage : String → String → String → String → String

/-- Embeds `normalizeAppt(a, status)` from the server file. -/
def normalizeAppt (env : Env) (a : ApptPayload) (status : String) : Appt :=
  { id := if a.id = "" then env.genId else a.id
    startISO := a.startISO
    slots := a.slots.getD (JsNum.fin 1)
    name := a.name
    phone := a.phone
    email := a.email
    serviceType := a.serviceType
    appliance := a.appliance
    notes := a.notes
    status := status
    createdISO := if a.createdISO = "" then env.now else a.createdISO }

/-- Embeds `hasStart(list, startISO)` from the server file: true when
`Date.parse` of the argument is finite and some list entry parses to the
same finite timestamp. -/
def hasStart (parse : String → Option Int) (list : List Appt) (startISO : String) : Bool :=
  match parse startISO with
  | none => false
  | some target =>
      list.any fun x =>
        match parse x.startISO with
        | none => false
        | some t => t == target

/-- Two start strings denote the same start time: `Date.parse` maps both to
the same finite timestamp. -/
def SameStart (parse : String → Option Int) (a b : String) : Prop :=
  ∃ t : Int, parse a = some t ∧ parse b = some t

/-- The scheduling state held by the server: the `BOOKED` and `PENDING`
arrays. -/
structure SchedState where
  booked : List Appt
  pending : List Appt
  deriving DecidableEq

/-- Splits a list at the first element satisfying `p`
(`findIndex` + `splice(idx, 1)`): returns the prefix before that element,
the element, and the suffix after it. -/
def extractFirst (p : α → Bool) : List α → Option (List α × α × List α)
  | [] => none
  | x :: xs =>
      if p x then some ([], x, xs)
      else (extractFirst p xs).map fun y => (x :: y.1, y.2.1, y.2.2)

/-- Embeds the `POST /api/schedule/request` handler.  Returns the new state
and the HTTP status. -/
def scheduleRequest (parse : String → Option Int) (env : Env) (payload : ApptPayload)
    (s : SchedState) : SchedState × Nat :=
  let appt := normalizeAppt env payload ("pending")
  if appt.startISO = "" then (s, 400)
  else if hasStart parse s.booked appt.startISO then (s, 409)
  else if hasStart parse s.pending appt.startISO then (s, 409)
  else ({ s with pending := s.pending ++ [appt] }, 200)

/-- Embeds the `POST /api/schedule/book` handler (admin immediate booking).
Note the pending purge compares `startISO` strings with `!==`, unlike
`hasStart`. -/
def scheduleBook (parse : String → Option Int) (env : Env) (payload : ApptPayload)
    (s : SchedState) : SchedState × Nat :=
  let appt := normalizeAppt env payload ("accepted")
  if appt.startISO = "" then (s, 400)
  else if hasStart parse s.booked appt.startISO then (s, 409)
  else
    ({ booked := s.booked ++ [appt]
       pending := s.pending.filter fun x => x.startISO != appt.startISO }, 200)

/-- Embeds the `POST /api/schedule/accept` handler: find the pending entry
by id; if its slot is already booked, drop the pending entry and answer
409; otherwise move it to `BOOKED` with status `"accepted"`. -/
def scheduleAccept (parse : String → Option Int) (id : String) (s : SchedState) :
    SchedState × Nat :=
  if id = "" then (s, 400)
  else
    match extractFirst (fun x => x.id == id) s.pending with
    | none => (s, 404)
    | some y =>
        if hasStart parse s.booked y.2.1.startISO then
          ({ s with pending := y.1 ++ y.2.2 }, 409)
        else
          ({ booked := s.booked ++ [{ y.2.1 with status := "accepted" }]
             pending := y.1 ++ y.2.2 }, 200)

/-- Embeds the `POST /api/schedule/reject` handler: filter the id out of
`PENDING` (the reassignment happens before the length check, so the state
always holds the filtered array). -/
def scheduleReject (id : String) (s : SchedState) : SchedState × Nat :=
  if id = "" then (s, 400)
  else
    let filtered := s.pending.filter fun x => x.id != id
    ({ s with pending := filtered },
      if filtered.length = s.pending.length then 404 else 200)

/-- Embeds the `POST /api/schedule/cancel` handler: filter the id out of
`BOOKED`. -/
def scheduleCancel (id : String) (s : SchedState) : SchedState × Nat :=
  if id = "" then (s, 400)
  else
    let filtered := s.booked.filter fun x => x.id != id
    ({ s with booked := filtered },
      if filtered.length = s.booked.length then 404 else 200)

/-- A request to one of the five `/api/schedule` endpoints. -/
inductive SchedReq
  | request (env : Env) (payload : ApptPayload)
  | book (env : Env) (payload : ApptPayload)
  | accept (id : String)
  | reject (id : String)
  | cancel (id : String)

/-- The state transition performed by one `/api/schedule` request. -/
def schedStep (parse : String → Option Int) (s : SchedState) : SchedReq → SchedState
  | .request env payload => (scheduleRequest parse env payload s).1
  | .book env payload => (scheduleBook parse env payload s).1
  | .accept id => (scheduleAccept parse id s).1
  | .reject id => (scheduleReject id s).1
  | .cancel id => (scheduleCancel id s).1

/-- Server states reachable from the empty schedule by `/api/schedule`
requests. -/
inductive Reachable (parse : String → Option Int) : SchedState → Prop
  | init : Reachable parse { booked := [], pending := [] }
  | step {s : SchedState} (r : SchedReq) :
      Reachable parse s → Reachable parse (schedStep parse s r)

/-- A day entry of the weekly template as submitted: `enabled` is the
truthiness of `conf?.enabled`; `start`/`endTime` hold `some` of the
`Number`-coerced value when the property is present (non-nullish), else
`none` (`endTime` embeds the source field `end`). -/
structure DayIn where
  enabled : Bool
  start : Option JsNum
  endTime : Option JsNum
  deriving DecidableEq

/-- A normalized day entry of the weekly template (`endTime` embeds the
source field `end`). -/
structure DayConf where
  enabled : Bool
  start : JsNum
  endTime : JsNum
  deriving DecidableEq

/-- The availability payload fed to `normalizeAvailability`: `weekly` is
`none` when `input?.weekly` is not an object, and each day is `none` when
missing; `blocks` is `none` when `input?.blocks` is not an object, and a
date's value is `none` when it is not an array, else the `String`-mapped
entries. -/
structure AvailInput where
  weekly : Option (Fin 7 → Option DayIn)
  blocks : Option (List (String × Option (List String)))

/-- A normalized availability: weekly template plus per-date blocked
slots. -/
structure Availability where
  weekly : Fin 7 → DayConf
  blocks : List (String × List String)

/-- `DEFAULT_AVAILABILITY.weekly[dow]` from the server file: Monday–Friday
enabled, 8 to 18. -/
def defaultWeekly (d : Fin 7) : DayIn :=
  { enabled := decide (1 ≤ d.val ∧ d.val ≤ 5)
    start := some (JsNum.fin 8)
    endTime := some (JsNum.fin 18) }

/-- `w[String(dow)] ?? w[dow] ?? DEFAULT_AVAILABILITY.weekly[dow]`. -/
def weeklyConf (input : AvailInput) (d : Fin 7) : DayIn :=
  (match input.weekly with
   | some w => w d
   | none => none).getD (defaultWeekly d)

/-- The per-day normalization in `normalizeAvailability`: clamp `start`
into [0, 23] and `end` into [1, 24], then force `end ≥ start + 1`. -/
def normalizeDay (c : DayIn) : DayConf :=
  let start := jsMax (JsNum.fin 0) (jsMin (JsNum.fin 23) (c.start.getD (JsNum.fin 8)))
  let endRaw := jsMax (JsNum.fin 1) (jsMin (JsNum.fin 24) (c.endTime.getD (JsNum.fin 18)))
  { enabled := c.enabled
    start := start
    endTime := jsMax endRaw (jsAdd start (JsNum.fin 1)) }

/-- Helper for `dedupFirst`: drop elements already in `seen` or seen
earlier in the list. -/
def dedupFirstAux (seen : List String) : List String → List String
  | [] => []
  | x :: xs =>
      if x ∈ seen then dedupFirstAux seen xs
      else x :: dedupFirstAux (x :: seen) xs

/-- `Array.from(new Set(arr))`: deduplicate keeping the first occurrence of
each element. -/
def dedupFirst (l : List String) : List String :=
  dedupFirstAux [] l

/-- JavaScript `Array.prototype.sort()` on strings.  On the duplicate-free
lists this code sorts, any comparison sort agrees, so we use insertion
sort over the lexicographic order on strings. -/
def jsSortStr (l : List String) : List String :=
  List.insertionSort (· ≤ ·) l

/-- The per-date block-list normalization in `normalizeAvailability`:
`Array.from(new Set(arr)).filter(Boolean).sort()`. -/
def normBlockList (l : List String) : List String :=
  jsSortStr ((dedupFirst l).filter fun s => s != "")

/-- The blocks loop of `normalizeAvailability`: keep each date whose
normalized list is non-empty. -/
def normBlocksIn (bs : List (String × Option (List String))) : List (String × List String) :=
  bs.filterMap fun kv =>
    let u := normBlockList (kv.2.getD [])
    if u = [] then none else some (kv.1, u)

/-- Embeds `normalizeAvailability(input)` from the server file. -/
def normalizeAvailability (input : AvailInput) : Availability :=
  { weekly := fun d => normalizeDay (weeklyConf input d)
    blocks := normBlocksIn (input.blocks.getD []) }

/-- Object property read: the value stored at the first occurrence of key
`k`. -/
def lookupKey (k : String) : List (String × List String) → Option (List String)
  | [] => none
  | kv :: rest => if kv.1 = k then some kv.2 else lookupKey k rest

/-- Object property write `obj[k] = v`: replace the first entry with key
`k`, or append a new entry. -/
def updateKey (k : String) (v : List String) :
    List (String × List String) → List (String × List String)
  | [] => [(k, v)]
  | kv :: rest => if kv.1 = k then (k, v) :: rest else kv :: updateKey k v rest

/-- Embeds the blocking branch (`shouldBlock = true`) of `blockSlotServer`
in src/app.js: if the slot is absent from the date's blocks, push it and
sort; then the (possibly unchanged) availability is posted to
`/api/availability/set`. -/
def blockSlotClient (A : Availability) (dateISO t : String) : Availability :=
  let arr := (lookupKey dateISO A.blocks).getD []
  if t ∈ arr then A
  else { A with blocks := updateKey dateISO (jsSortStr (arr ++ [t])) A.blocks }

/-- A stored availability serialized back into a request payload (every
field present, every block value an array). -/
def inputOfAvailability (A : Availability) : AvailInput :=
  { weekly := some fun d =>
      some { enabled := (A.weekly d).enabled
             start := some (A.weekly d).start
             endTime := some (A.weekly d).endTime }
    blocks := some (A.blocks.map fun kv => (kv.1, some kv.2)) }

/-- One client block operation followed by the server's
`/api/availability/set` handling: the availability the server stores
afterwards. -/
def blockOnServer (A : Availability) (dateISO t : String) : Availability :=
  normalizeAvailability (inputOfAvailability (blockSlotClient A dateISO t))

/-- `normBlocksIn` restricted to already-stored blocks (all values
arrays). -/
def normBlocksRe (bs : List (String × List String)) : List (String × List String) :=
  bs.filterMap fun kv =>
    let u := normBlockList kv.2
    if u = [] then none else some (kv.1, u)

/-- Every stored block entry is a fixed point of the normalization and
non-empty. -/
def NormalizedBlocks (bs : List (String × List String)) : Prop :=
  ∀ kv ∈ bs, normBlockList kv.2 = kv.2 ∧ kv.2 ≠ []

/-- A stored weekly day is well-formed in the sense of the spec: both
bounds finite, `start` in [0, 23], `end` in [1, 24], and `start < end`. -/
def WellFormedDay (c : DayConf) : Prop :=
  ∃ s e : ℚ, c.start = JsNum.fin s ∧ c.endTime = JsNum.fin e ∧
    0 ≤ s ∧ s ≤ 23 ∧ 1 ≤ e ∧ e ≤ 24 ∧ s < e

/-- Recognizes `HH:MM` strings: five characters, two digits, a colon, two
digits. -/
def isHHMM (s : String) : Bool :=
  match s.toList with
  | [h1, h2, c, m1, m2] =>
      h1.isDigit && h2.isDigit && (c == (':')) && m1.isDigit && m2.isDigit
  | _ => false

/-- An inventory item as stored in `INVENTORY`. -/
structure Item where
  id : String
  title : String
  model : String
  buyPrice : Option JsNum
  rentPrice : Option JsNum
  status : String
  note : String
  imagePath : String
  deriving DecidableEq

/-- The raw item payload read by `normalizeInventoryItem`: string fields
hold `String(input?.f || "")`; price fields hold `none` when the raw value
is `""` or nullish, else `some` of the coerced number. -/
structure ItemIn where
  id : String
  title : String
  model : String
  buyPrice : Option JsNum
  rentPrice : Option JsNum
  status : String
  note : String
  imagePath : String
  imageName : String
  deriving DecidableEq

/-- `/uploads/default.png`, the fallback image path. -/
def DEFAULT_IMAGE_PATH : String := "/uploads/default.png"

/-- Embeds `normalizeInventoryItem(input)` from the server file. -/
def normalizeInventoryItem (genId : String) (input : ItemIn) : Item :=
  { id := if input.id = "" then genId else input.id
    title := input.title.trim
    model := input.model.trim
    buyPrice := input.buyPrice
    rentPrice := input.rentPrice
    status := if input.status = "available" then "available" else "unavailable"
    note := input.note.trim
    imagePath :=
      let ip := input.imagePath.trim
      let ip := if ip = "" then DEFAULT_IMAGE_PATH else ip
      if ip.startsWith ("/uploads/") then ip else DEFAULT_IMAGE_PATH }

/-- `findIndex` by id then assign, else push: replace the first item with
the same id, or append. -/
def upsertById (item : Item) : List Item → List Item
  | [] => [item]
  | x :: xs => if x.id = item.id then item :: xs else x :: upsertById item xs

/-- Embeds the `POST /api/inventory/upsert` handler.  Returns the new
inventory, the HTTP status, and the item echoed back. -/
def inventoryUpsert (env : Env) (rawItem : ItemIn) (imageDataUrl imageName : String)
    (inv : List Item) : List Item × Nat × Item :=
  let item0 := normalizeInventoryItem env.genId rawItem
  let item :=
    if imageDataUrl ≠ "" then
      { item0 with
          imagePath :=
            env.saveImage imageDataUrl
              (if imageName ≠ "" then imageName
               else if rawItem.imageName ≠ "" then rawItem.imageName
               else "upload")
              item0.id ("inv") }
    else if item0.imagePath = "" then { item0 with imagePath := DEFAULT_IMAGE_PATH }
    else item0
  (upsertById item inv, 200, item)

/-- Embeds the `POST /api/inventory/delete` handler (the best-effort image
file removal is a filesystem side effect outside the stored state). -/
def inventoryDelete (id : String) (inv : List Item) : List Item × Nat :=
  if id = "" then (inv, 400)
  else
    match extractFirst (fun x => x.id == id) inv with
    | none => (inv, 404)
    | some y => (y.1 ++ y.2.2, 200)

/-- A gallery photo as stored in `GALLERY`. -/
structure Photo where
  id : String
  imagePath : String
  caption : String
  createdISO : String
  deriving DecidableEq

/-- Embeds the `POST /api/gallery/add` handler: unshift a new photo. -/
def galleryAdd (env : Env) (caption imageDataUrl imageName : String) (g : List Photo) :
    List Photo × Nat :=
  if imageDataUrl = "" then (g, 400)
  else
    let id := env.genId
    let imagePath :=
      env.saveImage imageDataUrl (if imageName ≠ "" then imageName else "gallery") id ("gal")
    ({ id := id, imagePath := imagePath, caption := caption.trim, createdISO := env.now } :: g,
      200)

/-- Embeds the `POST /api/gallery/delete` handler. -/
def galleryDelete (id : String) (g : List Photo) : List Photo × Nat :=
  if id = "" then (g, 400)
  else
    match extractFirst (fun x => x.id == id) g with
    | none => (g, 404)
    | some y => (y.1 ++ y.2.2, 200)

/-- An HTTP request as the server receives it: the parsed JSON body plus
the transport-level data (headers, peer address) the handlers never
read. -/
structure HttpReq (β : Type) where
  body : β
  headers : List (String × String)
  remoteAddr : String

/-- Body of `POST /api/availability/set`: the availability value
(`payload?.availability ?? payload`) plus any unread JSON fields (where a
pin or credential would sit). -/
structure AvailSetBody where
  availability : AvailInput
  extra : List (String × String)

/-- Body of `POST /api/schedule/book`: the appointment fields plus any
unread JSON fields. -/
structure BookBody where
  payload : ApptPayload
  extra : List (String × String)

/-- Body of `POST /api/inventory/upsert`: item, optional image upload
(`""` when absent), plus any unread JSON fields. -/
structure UpsertBody where
  item : ItemIn
  imageDataUrl : String
  imageName : String
  extra : List (String × String)

/-- Body of the delete endpoints: the id plus any unread JSON fields. -/
structure IdBody where
  id : String
  extra : List (String × String)

/-- Body of `POST /api/gallery/add`. -/
structure GalleryAddBody where
  caption : String
  imageDataUrl : String
  imageName : String
  extra : List (String × String)

/-- The `POST /api/availability/set` endpoint on a full HTTP request. -/
def apiAvailabilitySet (r : HttpReq AvailSetBody) (_st : Availability) : Availability × Nat :=
  (normalizeAvailability r.body.availability, 200)

/-- The `POST /api/schedule/book` endpoint on a full HTTP request. -/
def apiScheduleBook (parse : String → Option Int) (env : Env) (r : HttpReq BookBody)
    (s : SchedState) : SchedState × Nat :=
  scheduleBook parse env r.body.payload s

/-- The `POST /api/inventory/upsert` endpoint on a full HTTP request. -/
def apiInventoryUpsert (env : Env) (r : HttpReq UpsertBody) (inv : List Item) :
    List Item × Nat × Item :=
  inventoryUpsert env r.body.item r.body.imageDataUrl r.body.imageName inv

/-- The `POST /api/inventory/delete` endpoint on a full HTTP request. -/
def apiInventoryDelete (r : HttpReq IdBody) (inv : List Item) : List Item × Nat :=
  inventoryDelete r.body.id inv

/-- The `POST /api/gallery/add` endpoint on a full HTTP request. -/
def apiGalleryAdd (env : Env) (r : HttpReq GalleryAddBody) (g : List Photo) :
    List Photo × Nat :=
  galleryAdd env r.body.caption r.body.imageDataUrl r.body.imageName g

/-- The `POST /api/gallery/delete` endpoint on a full HTTP request. -/
def apiGalleryDelete (r : HttpReq IdBody) (g : List Photo) : List Photo × Nat :=
  galleryDelete r.body.id g

/-- `ADMIN_PIN` from src/app.js. -/
def ADMIN_PIN : String := "dunesea"

/-- The client-side admin PIN gate (`adminPinForm` submit handler in
src/app.js): trim the typed pin and compare with `ADMIN_PIN`. -/
def adminGate (entered : String) : Bool :=
  entered.trim == ADMIN_PIN

/-- A concrete `Date.parse` table for witnesses: `"T1"` and `"T1b"` denote
the same instant, `"T2"` a different one, everything else is
unparseable. -/
def parse0 : String → Option Int := fun s =>
  if s = "T1" then some 1000
  else if s = "T1b" then some 1000
  else if s = "T2" then some 2000
  else none

/-- A concrete environment for witnesses. -/
def env0 : Env :=
  { genId := "fresh-id"
    now := "2025-01-01T00:00:00.000Z"
    saveImage := fun _ _ _ _ => "/uploads/img.png" }

/-- A concrete appointment for witnesses. -/
def mkAppt (id startISO : String) : Appt :=
  { id := id, startISO := startISO, slots := JsNum.fin 1, name := "", phone := "", email := ""
    serviceType := "", appliance := "", notes := "", status := "pending", createdISO := "" }

/-- A concrete request payload for witnesses. -/
def payloadOf (id startISO : String) : ApptPayload :=
  { id := id, startISO := startISO, slots := none, name := "", phone := "", email := ""
    serviceType := "", appliance := "", notes := "", createdISO := "" }

/-! ### Helper lemmas -/

/-- `normalizeAppt` keeps the submitted `startISO`. -/
theorem normalizeAppt_startISO (env : Env) (a : ApptPayload) (status : String) :
    (normalizeAppt env a status).startISO = a.startISO := rfl

/-- Characterization of `hasStart`: some list entry has the same parsed
start time. -/
theorem hasStart_iff (parse : String → Option Int) (l : List Appt) (s : String) :
    hasStart parse l s = true ↔ ∃ x ∈ l, SameStart parse x.startISO s := by
  unfold hasStart SameStart
  cases hs : parse s with
  | none => simp
  | some target =>
      rw [List.any_eq_true]
      constructor
      · rintro ⟨x, hx, hm⟩
        cases ht : parse x.startISO with
        | none => rw [ht] at hm; exact absurd hm (by simp)
        | some t =>
            rw [ht] at hm
            simp only [beq_iff_eq] at hm
            exact ⟨x, hx, t, ht, by rw [hm]⟩
      · rintro ⟨x, hx, t, hxt, hst⟩
        refine ⟨x, hx, ?_⟩
        rw [hxt]
        simp only [beq_iff_eq]
        exact (Option.some.inj hst).symm

/-- A list's `filter` keeps its length exactly when it keeps everything. -/
theorem filter_length_eq_iff {α : Type} (p : α → Bool) (l : List α) :
    (l.filter p).length = l.length ↔ ∀ a ∈ l, p a = true := by
  constructor
  · intro h a ha
    have heq : l.filter p = l := (List.filter_sublist l).eq_of_length h
    rw [← heq] at ha
    exact (List.mem_filter.mp ha).2
  · intro h
    rw [List.filter_eq_self.mpr h]

/-- Appending an appointment whose start conflicts with nothing in the list
preserves pairwise distinctness of start times. -/
theorem pairwise_append_of_hasStart_false (parse : String → Option Int) {l : List Appt}
    (a : Appt) (hl : l.Pairwise fun x y => ¬ SameStart parse x.startISO y.startISO)
    (ha : hasStart parse l a.startISO = false) :
    (l ++ [a]).Pairwise fun x y => ¬ SameStart parse x.startISO y.startISO := by
  rw [List.pairwise_append]
  refine ⟨hl, List.pairwise_singleton _ _, fun x hx y hy => ?_⟩
  rw [List.mem_singleton] at hy
  rw [hy]
  rintro ⟨t, hxt, hat⟩
  have hT : hasStart parse l a.startISO = true :=
    (hasStart_iff parse l a.startISO).mpr ⟨x, hx, t, hxt, hat⟩
  rw [ha] at hT
  exact Bool.noConfusion hT

/-! ### Claims -/

/-- C1: a request with a non-empty `startISO` succeeds (200 and appended to
pending) only if no booked or pending appointment has the same start time;
when one exists the handler answers 409 and leaves the state unchanged. -/
theorem request_succeeds_iff_slot_free (parse : String → Option Int) (env : Env)
    (p : ApptPayload) (s : SchedState) (hne : p.startISO ≠ "") :
    ((∃ x ∈ s.booked ++ s.pending, SameStart parse x.startISO p.startISO) →
        scheduleRequest parse env p s = (s, 409)) ∧
    ((¬ ∃ x ∈ s.booked ++ s.pending, SameStart parse x.startISO p.startISO) →
        scheduleRequest parse env p s =
          ({ s with pending := s.pending ++ [normalizeAppt env p ("pending")] }, 200)) := by
  constructor
  · rintro ⟨x, hx, hs⟩
    rcases List.mem_append.mp hx with hxb | hxp
    · have hb : hasStart parse s.booked p.startISO = true :=
        (hasStart_iff parse s.booked p.startISO).mpr ⟨x, hxb, hs⟩
      simp [scheduleRequest, normalizeAppt_startISO, hne, hb]
    · have hp : hasStart parse s.pending p.startISO = true :=
        (hasStart_iff parse s.pending p.startISO).mpr ⟨x, hxp, hs⟩
      by_cases hb : hasStart parse s.booked p.startISO = true
      · simp [scheduleRequest, normalizeAppt_startISO, hne, hb]
      · simp [scheduleRequest, normalizeAppt_startISO, hne, hb, hp]
  · intro hno
    have hb : hasStart parse s.booked p.startISO = false := by
      by_cases h : hasStart parse s.booked p.startISO = true
      · obtain ⟨x, hx, hs⟩ := (hasStart_iff parse s.booked p.startISO).mp h
        exact absurd ⟨x, List.mem_append_left _ hx, hs⟩ hno
      · simpa using h
    have hp : hasStart parse s.pending p.startISO = false := by
      by_cases h : hasStart parse s.pending p.startISO = true
      · obtain ⟨x, hx, hs⟩ := (hasStart_iff parse s.pending p.startISO).mp h
        exact absurd ⟨x, List.mem_append_right _ hx, hs⟩ hno
      · simpa using h
    simp [scheduleRequest, normalizeAppt_startISO, hne, hb, hp]

/-- Witness for C1: a conflicting request (different string, same parsed
time) is refused with 409 and no state change; a free slot is appended. -/
theorem request_succeeds_iff_slot_free_witness :
    scheduleRequest parse0 env0 (payloadOf ("") ("T1b"))
        { booked := [mkAppt ("b1") ("T1")], pending := [] } =
      ({ booked := [mkAppt ("b1") ("T1")], pending := [] }, 409) ∧
    scheduleRequest parse0 env0 (payloadOf ("") ("T2")) { booked := [], pending := [] } =
      ({ booked := [],
         pending := [normalizeAppt env0 (payloadOf ("") ("T2")) ("pending")] }, 200) := by
  constructor
  · exact (request_succeeds_iff_slot_free parse0 env0 (payloadOf ("") ("T1b"))
      { booked := [mkAppt ("b1") ("T1")], pending := [] } (by decide)).1
      ⟨mkAppt ("b1") ("T1"), by simp, 1000, by decide, by decide⟩
  · exact (request_succeeds_iff_slot_free parse0 env0 (payloadOf ("") ("T2"))
      { booked := [], pending := [] } (by decide)).2
      (by rintro ⟨x, hx, hs⟩; simp at hx)

/-- C2 counterexample: accepting a pending request whose slot is already
booked answers 409 (an error), yet the pending entry has been removed, so
the state is not left as it was. -/
theorem accept_nonatomic_counterexample :
    (scheduleAccept parse0 ("a1")
        { booked := [mkAppt ("b1") ("T1")], pending := [mkAppt ("a1") ("T1b")] }).2 ≠ 200 ∧
    (scheduleAccept parse0 ("a1")
        { booked := [mkAppt ("b1") ("T1")], pending := [mkAppt ("a1") ("T1b")] }).1.pending ≠
      [mkAppt ("a1") ("T1b")] := by decide

/-- C2 (amended): on 400 or 404 the accept handler leaves the state
unchanged; on any non-200 answer the booked list is unchanged (so the
insertion never happens without the removal); on 409 exactly the matched
pending entry has been removed. -/
theorem accept_error_state_effects (parse : String → Option Int) (id : String) (s : SchedState)
    (pre post : List Appt) (a : Appt) :
    ((scheduleAccept parse id s).2 ≠ 200 → (scheduleAccept parse id s).1.booked = s.booked) ∧
    ((scheduleAccept parse id s).2 = 400 ∨ (scheduleAccept parse id s).2 = 404 →
      (scheduleAccept parse id s).1 = s) ∧
    (extractFirst (fun x => x.id == id) s.pending = some (pre, a, post) →
      (scheduleAccept parse id s).2 = 409 →
      (scheduleAccept parse id s).1 = { s with pending := pre ++ post }) := by
  by_cases hid : id = ""
  · have hr : scheduleAccept parse id s = (s, 400) := by simp [scheduleAccept, hid]
    rw [hr]
    exact ⟨fun _ => rfl, fun _ => rfl, fun _ h => by simp at h⟩
  · cases hext : extractFirst (fun x => x.id == id) s.pending with
    | none =>
        have hr : scheduleAccept parse id s = (s, 404) := by simp [scheduleAccept, hid, hext]
        rw [hr]
        exact ⟨fun _ => rfl, fun _ => rfl, fun h _ => Option.noConfusion h⟩
    | some y =>
        obtain ⟨pre', a', post'⟩ := y
        by_cases hb : hasStart parse s.booked a'.startISO = true
        · have hr : scheduleAccept parse id s = ({ s with pending := pre' ++ post' }, 409) := by
            simp [scheduleAccept, hid, hext, hb]
          rw [hr]
          refine ⟨fun _ => rfl, fun h2 => ?_, fun h3 _ => ?_⟩
          · rcases h2 with h2 | h2 <;> simp at h2
          · obtain ⟨rfl, rfl, rfl⟩ : pre' = pre ∧ a' = a ∧ post' = post := by
              simpa using h3
            rfl
        · have hr : scheduleAccept parse id s =
              ({ booked := s.booked ++ [{ a' with status := "accepted" }]
                 pending := pre' ++ post' }, 200) := by
            simp [scheduleAccept, hid, hext, hb]
          rw [hr]
          refine ⟨fun h1 => absurd rfl h1, fun h2 => ?_, fun _ h3 => by simp at h3⟩
          rcases h2 with h2 | h2 <;> simp at h2

/-- Witness for C2: the 409 branch removes the matched pending entry while
booked stays; an unknown id (404) leaves the state untouched. -/
theorem accept_error_state_effects_witness :
    (scheduleAccept parse0 ("a1")
        { booked := [mkAppt ("b1") ("T1")], pending := [mkAppt ("a1") ("T1b")] }).1 =
      { booked := [mkAppt ("b1") ("T1")], pending := [] } ∧
    (scheduleAccept parse0 ("a1")
        { booked := [mkAppt ("b1") ("T1")], pending := [mkAppt ("a1") ("T1b")] }).1.booked =
      [mkAppt ("b1") ("T1")] ∧
    (scheduleAccept parse0 ("zz")
        { booked := [mkAppt ("b1") ("T1")], pending := [mkAppt ("a1") ("T1b")] }).1 =
      { booked := [mkAppt ("b1") ("T1")], pending := [mkAppt ("a1") ("T1b")] } := by
  have h1 := accept_error_state_effects parse0 ("a1")
    { booked := [mkAppt ("b1") ("T1")], pending := [mkAppt ("a1") ("T1b")] }
    [] [] (mkAppt ("a1") ("T1b"))
  have h2 := accept_error_state_effects parse0 ("zz")
    { booked := [mkAppt ("b1") ("T1")], pending := [mkAppt ("a1") ("T1b")] }
    [] [] (mkAppt ("a1") ("T1b"))
  exact ⟨h1.2.2 (by decide) (by decide), h1.1 (by decide), h2.2.1 (Or.inr (by decide))⟩

/-- C3 counterexample: with two pending entries sharing an id, accepting
that id moves the first entry, not the given appointment `A`: `A` stays
pending and no accepted copy of `A` is booked, although `A` was pending
with no booked conflict. -/
theorem accept_first_match_counterexample :
    (scheduleAccept parse0 ("a1")
        { booked := [], pending := [mkAppt ("a1") ("T2"), mkAppt ("a1") ("T1")] }).2 = 200 ∧
    mkAppt ("a1") ("T1") ∈
      (scheduleAccept parse0 ("a1")
        { booked := [], pending := [mkAppt ("a1") ("T2"), mkAppt ("a1") ("T1")] }).1.pending ∧
    { mkAppt ("a1") ("T1") with status := "accepted" } ∉
      (scheduleAccept parse0 ("a1")
        { booked := [], pending := [mkAppt ("a1") ("T2"), mkAppt ("a1") ("T1")] }).1.booked := by
  decide

/-- C3 (amended): if `A` is the first pending entry carrying its (non-empty)
id and no booked appointment has the same start time, accepting `A.id`
answers 200, removes that pending occurrence and appends `A` with status
`"accepted"` to booked, leaving everything else unchanged. -/
theorem accept_moves_pending_to_booked (parse : String → Option Int) (s : SchedState)
    (A : Appt) (pre post : List Appt) (hid : A.id ≠ "")
    (hfirst : extractFirst (fun x => x.id == A.id) s.pending = some (pre, A, post))
    (hfree : ¬ ∃ x ∈ s.booked, SameStart parse x.startISO A.startISO) :
    scheduleAccept parse A.id s =
      ({ booked := s.booked ++ [{ A with status := "accepted" }]
         pending := pre ++ post }, 200) := by
  have hb : hasStart parse s.booked A.startISO = false := by
    by_cases h : hasStart parse s.booked A.startISO = true
    · exact absurd ((hasStart_iff parse s.booked A.startISO).mp h) hfree
    · simpa using h
  simp [scheduleAccept, hid, hfirst, hb]

/-- Witness for C3 at a concrete state. -/
theorem accept_moves_pending_to_booked_witness :
    scheduleAccept parse0 ("a1")
        { booked := [mkAppt ("b1") ("T2")], pending := [mkAppt ("a1") ("T1")] } =
      ({ booked := [mkAppt ("b1") ("T2")] ++ [{ mkAppt ("a1") ("T1") with status := "accepted" }]
         pending := [] }, 200) :=
  accept_moves_pending_to_booked parse0
    { booked := [mkAppt ("b1") ("T2")], pending := [mkAppt ("a1") ("T1")] }
    (mkAppt ("a1") ("T1")) [] [] (by decide) (by decide)
    (fun h => absurd ((hasStart_iff parse0 [mkAppt ("b1") ("T2")]
      ((mkAppt ("a1") ("T1")).startISO)).mpr h) (by decide))

/-- C4: in every state reachable from the empty schedule through the
`/api/schedule` endpoints, no two booked appointments share a parsed start
time. -/
theorem no_double_booking_invariant (parse : String → Option Int) (s : SchedState)
    (h : Reachable parse s) :
    s.booked.Pairwise fun x y => ¬ SameStart parse x.startISO y.startISO := by
  induction h with
  | init => simp
  | step r hs ih =>
      cases r with
      | request env payload =>
          simp only [schedStep, scheduleRequest]
          repeat' split
          all_goals exact ih
      | book env payload =>
          simp only [schedStep, scheduleBook]
          split
          · exact ih
          · split
            · exact ih
            · rename_i h1 h2
              exact pairwise_append_of_hasStart_false parse _ ih (by simpa using h2)
      | accept id =>
          simp only [schedStep, scheduleAccept]
          split
          · exact ih
          · split
            · exact ih
            · split
              · exact ih
              · rename_i y h1 h2
                exact pairwise_append_of_hasStart_false parse _ ih (by simpa using h2)
      | reject id =>
          simp only [schedStep, scheduleReject]
          split
          · exact ih
          · exact ih
      | cancel id =>
          simp only [schedStep, scheduleCancel]
          split
          · exact ih
          · exact List.Pairwise.sublist (List.filter_sublist _) ih

/-- Witness for C4: the invariant holds after booking a slot and then
requesting another. -/
theorem no_double_booking_invariant_witness :
    (schedStep parse0
        (schedStep parse0 { booked := [], pending := [] }
          (SchedReq.book env0 (payloadOf ("") ("T1"))))
        (SchedReq.request env0 (payloadOf ("") ("T2")))).booked.Pairwise
      (fun x y => ¬ SameStart parse0 x.startISO y.startISO) :=
  no_double_booking_invariant parse0 _
    (Reachable.step _ (Reachable.step _ Reachable.init))

/-- C8: start-time conflicts are decided by parsed timestamps (`hasStart`
holds exactly when some entry parses to the same finite time as the
argument), and a request whose non-empty `startISO` does not parse is
always appended to pending, whatever the state. -/
theorem same_start_is_parse_based (parse : String → Option Int) (l : List Appt) (s : String)
    (env : Env) (p : ApptPayload) (st : SchedState) :
    (hasStart parse l s = true ↔ ∃ x ∈ l, SameStart parse x.startISO s) ∧
    (parse p.startISO = none → p.startISO ≠ "" →
      scheduleRequest parse env p st =
        ({ st with pending := st.pending ++ [normalizeAppt env p ("pending")] }, 200)) := by
  refine ⟨hasStart_iff parse l s, fun hn hne => ?_⟩
  have hb : hasStart parse st.booked p.startISO = false := by
    unfold hasStart
    rw [hn]
  have hp : hasStart parse st.pending p.startISO = false := by
    unfold hasStart
    rw [hn]
  simp [scheduleRequest, normalizeAppt_startISO, hne, hb, hp]

/-- Witness for C8: `"T1"` and `"T1b"` conflict through their common parse;
two successive requests with the same unparseable `"zzz"` are both
accepted. -/
theorem same_start_is_parse_based_witness :
    (hasStart parse0 [mkAppt ("b1") ("T1")] ("T1b") = true ↔
      ∃ x ∈ [mkAppt ("b1") ("T1")], SameStart parse0 x.startISO ("T1b")) ∧
    scheduleRequest parse0 env0 (payloadOf ("") ("zzz")) { booked := [], pending := [] } =
      ({ booked := []
         pending := [normalizeAppt env0 (payloadOf ("") ("zzz")) ("pending")] }, 200) ∧
    scheduleRequest parse0 env0 (payloadOf ("") ("zzz"))
        { booked := []
          pending := [normalizeAppt env0 (payloadOf ("") ("zzz")) ("pending")] } =
      ({ booked := []
         pending := [normalizeAppt env0 (payloadOf ("") ("zzz")) ("pending"),
           normalizeAppt env0 (payloadOf ("") ("zzz")) ("pending")] }, 200) := by
  refine ⟨(same_start_is_parse_based parse0 [mkAppt ("b1") ("T1")] ("T1b") env0
      (payloadOf ("") ("zzz")) { booked := [], pending := [] }).1, ?_, ?_⟩
  · exact (same_start_is_parse_based parse0 [] ("") env0 (payloadOf ("") ("zzz"))
      { booked := [], pending := [] }).2 (by decide) (by decide)
  · exact (same_start_is_parse_based parse0 [] ("") env0 (payloadOf ("") ("zzz"))
      { booked := []
        pending := [normalizeAppt env0 (payloadOf ("") ("zzz")) ("pending")] }).2
      (by decide) (by decide)

/-- C10 counterexample: with an empty id (and no pending entry carrying it)
the reject handler answers 400, not the 404 the claim requires. -/
theorem reject_empty_id_counterexample :
    (scheduleReject ("") { booked := [], pending := [] }).2 = 400 ∧ (400 : Nat) ≠ 404 := by
  decide

/-- C10 (amended): for every non-empty id, reject removes exactly the
pending entries with that id and never touches booked, answering 404 with
nothing removed when no pending entry matches; cancel does the same with
the roles of the two lists exchanged. -/
theorem reject_cancel_frame (id : String) (s : SchedState) (hid : id ≠ "") :
    ((scheduleReject id s).1.booked = s.booked ∧
      ((∀ x ∈ s.pending, x.id ≠ id) → scheduleReject id s = (s, 404)) ∧
      ((∃ x ∈ s.pending, x.id = id) →
        scheduleReject id s =
          ({ s with pending := s.pending.filter fun x => x.id != id }, 200))) ∧
    ((scheduleCancel id s).1.pending = s.pending ∧
      ((∀ x ∈ s.booked, x.id ≠ id) → scheduleCancel id s = (s, 404)) ∧
      ((∃ x ∈ s.booked, x.id = id) →
        scheduleCancel id s =
          ({ s with booked := s.booked.filter fun x => x.id != id }, 200))) := by
  constructor
  · refine ⟨by simp [scheduleReject, hid], fun h => ?_, fun h => ?_⟩
    · have hf : s.pending.filter (fun x => x.id != id) = s.pending :=
        List.filter_eq_self.mpr fun a ha => by simpa using h a ha
      simp [scheduleReject, hid, hf]
    · obtain ⟨x, hx, hxid⟩ := h
      have hlen : ¬ ((s.pending.filter fun x => x.id != id).length = s.pending.length) := by
        rw [filter_length_eq_iff]
        intro hall
        have hcontra := hall x hx
        rw [hxid] at hcontra
        simp at hcontra
      simp [scheduleReject, hid, hlen]
  · refine ⟨by simp [scheduleCancel, hid], fun h => ?_, fun h => ?_⟩
    · have hf : s.booked.filter (fun x => x.id != id) = s.booked :=
        List.filter_eq_self.mpr fun a ha => by simpa using h a ha
      simp [scheduleCancel, hid, hf]
    · obtain ⟨x, hx, hxid⟩ := h
      have hlen : ¬ ((s.booked.filter fun x => x.id != id).length = s.booked.length) := by
        rw [filter_length_eq_iff]
        intro hall
        have hcontra := hall x hx
        rw [hxid] at hcontra
        simp at hcontra
      simp [scheduleCancel, hid, hlen]

/-- Witness for C10 covering all four branches at concrete states. -/
theorem reject_cancel_frame_witness :
    scheduleReject ("a1") { booked := [mkAppt ("b1") ("T1")], pending := [mkAppt ("a1") ("T1b")] } =
      ({ booked := [mkAppt ("b1") ("T1")]
         pending := [mkAppt ("a1") ("T1b")].filter fun x => x.id != ("a1") }, 200) ∧
    scheduleCancel ("a1") { booked := [mkAppt ("b1") ("T1")], pending := [mkAppt ("a1") ("T1b")] } =
      ({ booked := [mkAppt ("b1") ("T1")], pending := [mkAppt ("a1") ("T1b")] }, 404) ∧
    scheduleReject ("b1") { booked := [mkAppt ("b1") ("T1")], pending := [mkAppt ("a1") ("T1b")] } =
      ({ booked := [mkAppt ("b1") ("T1")], pending := [mkAppt ("a1") ("T1b")] }, 404) ∧
    scheduleCancel ("b1") { booked := [mkAppt ("b1") ("T1")], pending := [mkAppt ("a1") ("T1b")] } =
      ({ booked := [mkAppt ("b1") ("T1")].filter fun x => x.id != ("b1")
         pending := [mkAppt ("a1") ("T1b")] }, 200) := by
  have h1 := reject_cancel_frame ("a1")
    { booked := [mkAppt ("b1") ("T1")], pending := [mkAppt ("a1") ("T1b")] } (by decide)
  have h2 := reject_cancel_frame ("b1")
    { booked := [mkAppt ("b1") ("T1")], pending := [mkAppt ("a1") ("T1b")] } (by decide)
  exact ⟨h1.1.2.2 ⟨mkAppt ("a1") ("T1b"), by simp, rfl⟩, h1.2.2.1 (by decide),
    h2.1.2.1 (by decide), h2.2.2.2 ⟨mkAppt ("b1") ("T1"), by simp, rfl⟩⟩

/-! ### Availability helper lemmas -/

/-- Membership in `dedupFirstAux`: in the remaining list and not yet
seen. -/
theorem mem_dedupFirstAux (l : List String) :
    ∀ (seen : List String) (x : String), x ∈ dedupFirstAux seen l ↔ x ∈ l ∧ x ∉ seen := by
  induction l with
  | nil => intro seen x; simp [dedupFirstAux]
  | cons a as ih =>
      intro seen x
      by_cases ha : a ∈ seen
      · rw [dedupFirstAux, if_pos ha, ih, List.mem_cons]
        constructor
        · exact fun h => ⟨Or.inr h.1, h.2⟩
        · rintro ⟨h1 | h1, h2⟩
          · exact absurd (h1 ▸ ha) h2
          · exact ⟨h1, h2⟩
      · rw [dedupFirstAux, if_neg ha, List.mem_cons, ih, List.mem_cons, List.mem_cons]
        constructor
        · rintro (rfl | ⟨h1, h2⟩)
          · exact ⟨Or.inl rfl, ha⟩
          · exact ⟨Or.inr h1, fun hs => h2 (Or.inr hs)⟩
        · rintro ⟨rfl | h1, h2⟩
          · exact Or.inl rfl
          · by_cases hxa : x = a
            · exact Or.inl hxa
            · exact Or.inr ⟨h1, fun hs => hs.elim hxa h2⟩

/-- Membership in `dedupFirst` is membership in the original list. -/
theorem mem_dedupFirst (l : List String) (x : String) : x ∈ dedupFirst l ↔ x ∈ l := by
  rw [dedupFirst, mem_dedupFirstAux]
  simp

/-- `dedupFirstAux` produces a duplicate-free list. -/
theorem nodup_dedupFirstAux (l : List String) :
    ∀ seen : List String, (dedupFirstAux seen l).Nodup := by
  induction l with
  | nil => intro seen; simp [dedupFirstAux]
  | cons a as ih =>
      intro seen
      by_cases ha : a ∈ seen
      · rw [dedupFirstAux, if_pos ha]; exact ih seen
      · rw [dedupFirstAux, if_neg ha, List.nodup_cons]
        refine ⟨fun hmem => ?_, ih (a :: seen)⟩
        exact ((mem_dedupFirstAux as (a :: seen) a).mp hmem).2 (List.mem_cons_self a seen)

/-- `dedupFirst` produces a duplicate-free list. -/
theorem nodup_dedupFirst (l : List String) : (dedupFirst l).Nodup :=
  nodup_dedupFirstAux l []

/-- On a duplicate-free list avoiding `seen`, `dedupFirstAux` is the
identity. -/
theorem dedupFirstAux_eq_self (l : List String) :
    ∀ seen : List String, l.Nodup → (∀ x ∈ l, x ∉ seen) → dedupFirstAux seen l = l := by
  induction l with
  | nil => intro seen _ _; rfl
  | cons a as ih =>
      intro seen hn hs
      rw [dedupFirstAux, if_neg (hs a (List.mem_cons_self a as))]
      congr 1
      refine ih (a :: seen) (List.Nodup.of_cons hn) fun x hx => ?_
      intro hmem
      rcases List.mem_cons.mp hmem with rfl | hmem'
      · exact (List.nodup_cons.mp hn).1 hx
      · exact hs x (List.mem_cons_of_mem a hx) hmem'

/-- On a duplicate-free list, `dedupFirst` is the identity. -/
theorem dedupFirst_eq_self {l : List String} (h : l.Nodup) : dedupFirst l = l :=
  dedupFirstAux_eq_self l [] h (by simp)

/-- Membership in a normalized block list: a non-empty member of the
submitted list. -/
theorem mem_normBlockList (l : List String) (x : String) :
    x ∈ normBlockList l ↔ x ∈ l ∧ x ≠ "" := by
  unfold normBlockList jsSortStr
  rw [(List.perm_insertionSort (· ≤ ·) _).mem_iff, List.mem_filter, mem_dedupFirst]
  simp [bne_iff_ne]

/-- Normalized block lists are sorted. -/
theorem sorted_normBlockList (l : List String) : List.Sorted (· ≤ ·) (normBlockList l) :=
  List.sorted_insertionSort (· ≤ ·) _

/-- Normalized block lists are duplicate-free. -/
theorem nodup_normBlockList (l : List String) : (normBlockList l).Nodup :=
  (List.perm_insertionSort (· ≤ ·) _).nodup_iff.mpr ((nodup_dedupFirst l).filter _)

/-- Normalized block lists never contain the empty string. -/
theorem empty_not_mem_normBlockList (l : List String) : ("") ∉ normBlockList l :=
  fun h => ((mem_normBlockList l ("")).mp h).2 rfl

/-- A sorted, duplicate-free list without `""` is a fixed point of
`normBlockList`. -/
theorem normBlockList_eq_self {l : List String} (hs : List.Sorted (· ≤ ·) l)
    (hn : l.Nodup) (he : ("") ∉ l) : normBlockList l = l := by
  unfold normBlockList
  rw [dedupFirst_eq_self hn,
    List.filter_eq_self.mpr fun a ha => by rw [bne_iff_ne]; exact fun hq => he (hq ▸ ha)]
  exact List.Sorted.insertionSort_eq hs

/-- `normBlockList` is idempotent. -/
theorem normBlockList_idem (l : List String) :
    normBlockList (normBlockList l) = normBlockList l :=
  normBlockList_eq_self (sorted_normBlockList l) (nodup_normBlockList l)
    (empty_not_mem_normBlockList l)

/-- Two lists with the same members have the same normalized block
list. -/
theorem normBlockList_congr {l₁ l₂ : List String} (h : ∀ x, x ∈ l₁ ↔ x ∈ l₂) :
    normBlockList l₁ = normBlockList l₂ := by
  have key : ∀ {m₁ m₂ : List String}, List.Sorted (· ≤ ·) m₁ → List.Sorted (· ≤ ·) m₂ →
      m₁.Nodup → m₂.Nodup → (∀ x, x ∈ m₁ ↔ x ∈ m₂) → m₁ = m₂ := by
    intro m₁
    induction m₁ with
    | nil =>
        intro m₂ _ _ _ _ hm
        cases m₂ with
        | nil => rfl
        | cons y ys => exact absurd ((hm y).mpr (List.mem_cons_self y ys)) (List.not_mem_nil y)
    | cons a as ih =>
        intro m₂ hs₁ hs₂ hn₁ hn₂ hm
        cases m₂ with
        | nil => exact absurd ((hm a).mp (List.mem_cons_self a as)) (List.not_mem_nil a)
        | cons b bs =>
            have hab : a = b := by
              rcases List.mem_cons.mp ((hm a).mp (List.mem_cons_self a as)) with h1 | h1
              · exact h1
              · rcases List.mem_cons.mp ((hm b).mpr (List.mem_cons_self b bs)) with h2 | h2
                · exact h2.symm
                · exact le_antisymm (List.rel_of_sorted_cons hs₁ b h2)
                    (List.rel_of_sorted_cons hs₂ a h1)
            subst hab
            congr 1
            refine ih hs₁.of_cons hs₂.of_cons (List.Nodup.of_cons hn₁)
              (List.Nodup.of_cons hn₂) fun z => ?_
            constructor
            · intro hz
              rcases List.mem_cons.mp ((hm z).mp (List.mem_cons_of_mem a hz)) with rfl | h2
              · exact absurd hz (List.nodup_cons.mp hn₁).1
              · exact h2
            · intro hz
              rcases List.mem_cons.mp ((hm z).mpr (List.mem_cons_of_mem a hz)) with rfl | h2
              · exact absurd hz (List.nodup_cons.mp hn₂).1
              · exact h2
  refine key (sorted_normBlockList l₁) (sorted_normBlockList l₂)
    (nodup_normBlockList l₁) (nodup_normBlockList l₂) fun x => ?_
  rw [mem_normBlockList, mem_normBlockList, h x]

/-- `lookupKey` misses exactly when no entry carries the key. -/
theorem lookupKey_eq_none_iff (k : String) (bs : List (String × List String)) :
    lookupKey k bs = none ↔ ∀ kv ∈ bs, kv.1 ≠ k := by
  induction bs with
  | nil => simp [lookupKey]
  | cons kv rest ih =>
      by_cases hk : kv.1 = k
      · rw [lookupKey, if_pos hk]
        simp only [List.mem_cons]
        constructor
        · exact fun h => Option.noConfusion h
        · intro h; exact absurd hk (h kv (Or.inl rfl))
      · rw [lookupKey, if_neg hk, ih]
        simp only [List.mem_cons]
        constructor
        · rintro h kv' (rfl | hm)
          · exact hk
          · exact h kv' hm
        · exact fun h kv' hm => h kv' (Or.inr hm)

/-- A successful `lookupKey` exhibits a list entry. -/
theorem lookupKey_mem {k : String} {v : List String} {bs : List (String × List String)}
    (h : lookupKey k bs = some v) : (k, v) ∈ bs := by
  induction bs with
  | nil => exact Option.noConfusion h
  | cons kv rest ih =>
      rw [lookupKey] at h
      by_cases hk : kv.1 = k
      · rw [if_pos hk] at h
        obtain rfl := Option.some.inj h
        have : kv = (k, kv.2) := by rw [← hk]
        rw [← this]
        exact List.mem_cons_self kv rest
      · rw [if_neg hk] at h
        exact List.mem_cons_of_mem kv (ih h)

/-- `normBlocksRe` distributes over append. -/
theorem normBlocksRe_append (l₁ l₂ : List (String × List String)) :
    normBlocksRe (l₁ ++ l₂) = normBlocksRe l₁ ++ normBlocksRe l₂ := by
  unfold normBlocksRe
  exact List.filterMap_append l₁ l₂ _

/-- Every entry of `normBlocksRe` is a non-empty fixed point of the
normalization. -/
theorem normalizedBlocks_normBlocksRe (bs : List (String × List String)) :
    NormalizedBlocks (normBlocksRe bs) := by
  intro kv hkv
  simp only [normBlocksRe, List.mem_filterMap] at hkv
  obtain ⟨kv0, _, hmap⟩ := hkv
  by_cases h : normBlockList kv0.2 = []
  · rw [if_pos h] at hmap; exact Option.noConfusion hmap
  · rw [if_neg h] at hmap
    obtain rfl := Option.some.inj hmap
    exact ⟨normBlockList_idem kv0.2, h⟩

/-- On already-normalized blocks, `normBlocksRe` is the identity. -/
theorem normBlocksRe_eq_self {bs : List (String × List String)}
    (h : NormalizedBlocks bs) : normBlocksRe bs = bs := by
  induction bs with
  | nil => rfl
  | cons kv rest ih =>
      obtain ⟨h1, h2⟩ := h kv (List.mem_cons_self kv rest)
      simp only [normBlocksRe, List.filterMap_cons]
      rw [h1, if_neg h2]
      have hrest : normBlocksRe rest = rest :=
        ih fun kv' hkv' => h kv' (List.mem_cons_of_mem kv hkv')
      simp only [normBlocksRe] at hrest
      rw [hrest]

/-- The server's re-normalization of a posted stored availability acts on
blocks as `normBlocksRe`. -/
theorem blocks_normalizeAvailability_inputOf (A : Availability) :
    (normalizeAvailability (inputOfAvailability A)).blocks = normBlocksRe A.blocks := by
  show normBlocksIn (A.blocks.map fun kv => (kv.1, some kv.2)) = normBlocksRe A.blocks
  unfold normBlocksIn normBlocksRe
  rw [List.filterMap_map]
  rfl

/-- `lookupKey` after `normBlocksRe`: the first hit survives when its
normalization is non-empty. -/
theorem lookupKey_normBlocksRe {bs : List (String × List String)} {d : String}
    {v : List String} (h : lookupKey d bs = some v) (hne : normBlockList v ≠ []) :
    lookupKey d (normBlocksRe bs) = some (normBlockList v) := by
  induction bs with
  | nil => exact Option.noConfusion h
  | cons kv rest ih =>
      rw [lookupKey] at h
      by_cases hk : kv.1 = d
      · rw [if_pos hk] at h
        obtain rfl := Option.some.inj h
        simp only [normBlocksRe, List.filterMap_cons]
        rw [if_neg hne, lookupKey, if_pos hk]
      · rw [if_neg hk] at h
        have htail := ih h
        simp only [normBlocksRe, List.filterMap_cons]
        by_cases hu : normBlockList kv.2 = []
        · rw [if_pos hu]
          simpa [normBlocksRe] using htail
        · rw [if_neg hu, lookupKey, if_neg hk]
          simpa [normBlocksRe] using htail

/-- Looking up the key just written by `updateKey`. -/
theorem lookupKey_updateKey (d : String) (v : List String)
    (bs : List (String × List String)) : lookupKey d (updateKey d v bs) = some v := by
  induction bs with
  | nil => simp [updateKey, lookupKey]
  | cons kv rest ih =>
      by_cases hk : kv.1 = d
      · rw [updateKey, if_pos hk, lookupKey, if_pos rfl]
      · rw [updateKey, if_neg hk, lookupKey, if_neg hk]
        exact ih

/-- When the key is absent, `updateKey` appends. -/
theorem updateKey_of_none {bs : List (String × List String)} {d : String}
    (h : lookupKey d bs = none) (v : List String) : updateKey d v bs = bs ++ [(d, v)] := by
  induction bs with
  | nil => rfl
  | cons kv rest ih =>
      rw [lookupKey] at h
      by_cases hk : kv.1 = d
      · rw [if_pos hk] at h; exact Option.noConfusion h
      · rw [if_neg hk] at h
        rw [updateKey, if_neg hk, List.cons_append, ih h]

/-- When the key is present, `updateKey` replaces the first entry in
place. -/
theorem updateKey_decomp {bs : List (String × List String)} {d : String} {v0 : List String}
    (h : lookupKey d bs = some v0) :
    ∃ pre post, bs = pre ++ (d, v0) :: post ∧
      ∀ v, updateKey d v bs = pre ++ (d, v) :: post := by
  induction bs with
  | nil => exact Option.noConfusion h
  | cons kv rest ih =>
      rw [lookupKey] at h
      by_cases hk : kv.1 = d
      · rw [if_pos hk] at h
        obtain rfl := Option.some.inj h
        refine ⟨[], rest, ?_, fun v => ?_⟩
        · have : kv = (d, kv.2) := by rw [← hk]
          rw [← this]; rfl
        · rw [updateKey, if_pos hk]; rfl
      · rw [if_neg hk] at h
        obtain ⟨pre, post, hdec, hupd⟩ := ih h
        refine ⟨kv :: pre, post, by rw [List.cons_append, ← hdec], fun v => ?_⟩
        rw [updateKey, if_neg hk, hupd v, List.cons_append]

/-- The blocks stored after one client block operation are the
re-normalization of the client's blocks. -/
theorem blocks_blockOnServer (A : Availability) (d t : String) :
    (blockOnServer A d t).blocks = normBlocksRe (blockSlotClient A d t).blocks := by
  unfold blockOnServer
  exact blocks_normalizeAvailability_inputOf _

/-- Blocks stored after a block operation are normalized. -/
theorem normalizedBlocks_blockOnServer (A : Availability) (d t : String) :
    NormalizedBlocks (blockOnServer A d t).blocks := by
  rw [blocks_blockOnServer]
  exact normalizedBlocks_normBlocksRe _

/-- After blocking a non-empty slot, the stored blocks list the slot under
its date. -/
theorem lookup_blockOnServer_mem (A : Availability) (d t : String) (ht : t ≠ "") :
    ∃ w, lookupKey d (blockOnServer A d t).blocks = some w ∧ t ∈ w := by
  rw [blocks_blockOnServer]
  unfold blockSlotClient
  by_cases hmem : t ∈ (lookupKey d A.blocks).getD []
  · rw [if_pos hmem]
    cases hl : lookupKey d A.blocks with
    | none => rw [hl] at hmem; exact absurd hmem (List.not_mem_nil t)
    | some arr0 =>
        rw [hl, Option.getD_some] at hmem
        have htv : t ∈ normBlockList arr0 := (mem_normBlockList arr0 t).mpr ⟨hmem, ht⟩
        exact ⟨normBlockList arr0, lookupKey_normBlocksRe hl (List.ne_nil_of_mem htv), htv⟩
  · rw [if_neg hmem]
    have hlv := lookupKey_updateKey d
      (jsSortStr ((lookupKey d A.blocks).getD [] ++ [t])) A.blocks
    have htv1 : t ∈ jsSortStr ((lookupKey d A.blocks).getD [] ++ [t]) := by
      rw [jsSortStr, (List.perm_insertionSort (· ≤ ·) _).mem_iff]
      exact List.mem_append_right _ (List.mem_singleton.mpr rfl)
    have htv : t ∈ normBlockList (jsSortStr ((lookupKey d A.blocks).getD [] ++ [t])) :=
      (mem_normBlockList _ t).mpr ⟨htv1, ht⟩
    exact ⟨normBlockList (jsSortStr ((lookupKey d A.blocks).getD [] ++ [t])),
      lookupKey_normBlocksRe hlv (List.ne_nil_of_mem htv), htv⟩

/-- Blocking a slot already listed under its date leaves normalized blocks
unchanged. -/
theorem blockOnServer_of_mem (S : Availability) (d t : String)
    (hS : NormalizedBlocks S.blocks) (w : List String)
    (hw : lookupKey d S.blocks = some w) (htw : t ∈ w) :
    (blockOnServer S d t).blocks = S.blocks := by
  rw [blocks_blockOnServer]
  unfold blockSlotClient
  rw [hw, Option.getD_some, if_pos htw]
  exact normBlocksRe_eq_self hS

/-- Blocking the empty-string slot leaves normalized blocks unchanged: the
slot is pushed by the client but dropped again by the server's
`filter(Boolean)`. -/
theorem blockOnServer_empty_str (S : Availability) (d : String)
    (hS : NormalizedBlocks S.blocks) :
    (blockOnServer S d ("")).blocks = S.blocks := by
  rw [blocks_blockOnServer]
  unfold blockSlotClient
  cases hl : lookupKey d S.blocks with
  | none =>
      simp only [Option.getD_none]
      rw [if_neg (List.not_mem_nil (""))]
      have h1 : jsSortStr (([] : List String) ++ [("")]) = [("")] := rfl
      rw [h1, updateKey_of_none hl, normBlocksRe_append]
      have h2 : normBlocksRe [(d, [("")])] = [] := by
        have h3 : normBlockList [("")] = [] := by decide
        simp [normBlocksRe, List.filterMap_cons, h3]
      rw [h2, List.append_nil]
      exact normBlocksRe_eq_self hS
  | some w =>
      obtain ⟨hfix0, hwne0⟩ := hS (d, w) (lookupKey_mem hl)
      have hfix : normBlockList w = w := hfix0
      have hwne : w ≠ [] := hwne0
      have hemem : ("") ∉ w := by
        intro hmem
        rw [← hfix] at hmem
        exact ((mem_normBlockList _ _).mp hmem).2 rfl
      simp only [Option.getD_some]
      rw [if_neg hemem]
      obtain ⟨pre, post, hdec, hupd⟩ := updateKey_decomp hl
      rw [hupd]
      have hwprops : w.Nodup ∧ List.Sorted (· ≤ ·) w := by
        constructor
        · rw [← hfix]; exact nodup_normBlockList w
        · rw [← hfix]; exact sorted_normBlockList w
      have hv2 : normBlockList (jsSortStr (w ++ [("")])) = w := by
        have hstep1 : normBlockList (jsSortStr (w ++ [("")])) = normBlockList (w ++ [("")]) :=
          normBlockList_congr fun x => by
            rw [jsSortStr, (List.perm_insertionSort (· ≤ ·) _).mem_iff]
        rw [hstep1]
        unfold normBlockList
        have hnd : (w ++ [("")]).Nodup := by
          refine List.Nodup.append hwprops.1 (List.nodup_singleton _) ?_
          intro x hx hx'
          rw [List.mem_singleton] at hx'
          exact hemem (hx' ▸ hx)
        rw [dedupFirst_eq_self hnd, List.filter_append,
          List.filter_eq_self.mpr fun a ha => by
            rw [bne_iff_ne]; exact fun hq => hemem (hq ▸ ha)]
        have hfe : List.filter (fun s => s != "") [("")] = [] := by decide
        rw [hfe, List.append_nil]
        exact List.Sorted.insertionSort_eq hwprops.2
      calc normBlocksRe (pre ++ (d, jsSortStr (w ++ [("")])) :: post)
          = normBlocksRe pre ++ normBlocksRe ((d, jsSortStr (w ++ [("")])) :: post) :=
            normBlocksRe_append _ _
        _ = normBlocksRe pre ++ (d, w) :: normBlocksRe post := by
            simp only [normBlocksRe, List.filterMap_cons]
            rw [hv2, if_neg hwne]
        _ = pre ++ (d, w) :: post := by
            have hpre : NormalizedBlocks pre := fun kv hkv =>
              hS kv (by rw [hdec]; exact List.mem_append_left _ hkv)
            have hpost : NormalizedBlocks post := fun kv hkv =>
              hS kv (by rw [hdec]; exact List.mem_append_right _ (List.mem_cons_of_mem _ hkv))
            rw [normBlocksRe_eq_self hpre, normBlocksRe_eq_self hpost]
        _ = S.blocks := hdec.symm

/-! ### Availability claims -/

/-- C5 counterexample: a blocked slot that is not an `HH:MM` string is
stored as submitted — `normalizeAvailability` never validates the
format. -/
theorem blocks_not_validated_counterexample :
    lookupKey ("2025-01-02")
        (normalizeAvailability
          { weekly := none, blocks := some [(("2025-01-02"), some [("banana")])] }).blocks =
      some [("banana")] ∧
    isHHMM ("banana") = false := by
  constructor
  · decide
  · decide

/-- C5 (amended): after `/api/availability/set` every stored date maps to a
non-empty, duplicate-free, sorted list of non-empty strings (not
necessarily in `HH:MM` format), and a date is absent exactly when every
submitted list for it normalizes to empty. -/
theorem blocks_normalized_shape (input : AvailInput) (k : String) (l : List String) :
    (lookupKey k (normalizeAvailability input).blocks = some l →
      l ≠ [] ∧ l.Nodup ∧ List.Sorted (· ≤ ·) l ∧ ∀ x ∈ l, x ≠ "") ∧
    (lookupKey k (normalizeAvailability input).blocks = none ↔
      ∀ kv ∈ input.blocks.getD [], kv.1 = k → normBlockList (kv.2.getD []) = []) := by
  constructor
  · intro h
    have hmem : (k, l) ∈ normBlocksIn (input.blocks.getD []) := lookupKey_mem h
    simp only [normBlocksIn, List.mem_filterMap] at hmem
    obtain ⟨kv0, _, hmap⟩ := hmem
    by_cases hu : normBlockList (kv0.2.getD []) = []
    · rw [if_pos hu] at hmap; exact Option.noConfusion hmap
    · rw [if_neg hu] at hmap
      have hl : l = normBlockList (kv0.2.getD []) :=
        congrArg Prod.snd (Option.some.inj hmap).symm
      rw [hl]
      exact ⟨hu, nodup_normBlockList _, sorted_normBlockList _,
        fun x hx => ((mem_normBlockList _ x).mp hx).2⟩
  · constructor
    · intro h kv hkv hk
      by_contra hne
      have hout : (kv.1, normBlockList (kv.2.getD [])) ∈ normBlocksIn (input.blocks.getD []) := by
        simp only [normBlocksIn, List.mem_filterMap]
        exact ⟨kv, hkv, by rw [if_neg hne]⟩
      exact ((lookupKey_eq_none_iff k _).mp h _ hout) hk
    · intro h
      rw [lookupKey_eq_none_iff]
      intro kv' hkv'
      have hkv2 : kv' ∈ normBlocksIn (input.blocks.getD []) := hkv'
      simp only [normBlocksIn, List.mem_filterMap] at hkv2
      obtain ⟨kv0, hkv0, hmap⟩ := hkv2
      by_cases hu : normBlockList (kv0.2.getD []) = []
      · rw [if_pos hu] at hmap; exact Option.noConfusion hmap
      · rw [if_neg hu] at hmap
        have hk1 : kv'.1 = kv0.1 := congrArg Prod.fst (Option.some.inj hmap).symm
        rw [hk1]
        exact fun hkk => hu (h kv0 hkv0 hkk)

/-- Witness for C5: duplicates and empty strings are dropped and the
result kept, while a date whose list normalizes to empty is absent. -/
theorem blocks_normalized_shape_witness :
    ([("10:00")] ≠ [] ∧ [("10:00")].Nodup ∧ List.Sorted (· ≤ ·) [("10:00")] ∧
      ∀ x ∈ [("10:00")], x ≠ "") ∧
    lookupKey ("x")
        (normalizeAvailability
          { weekly := none, blocks := some [(("x"), some [("")])] }).blocks = none := by
  constructor
  · exact (blocks_normalized_shape
      { weekly := none, blocks := some [(("d"), some [("10:00"), ("10:00"), ("")])] }
      ("d") [("10:00")]).1 (by decide)
  · exact (blocks_normalized_shape
      { weekly := none, blocks := some [(("x"), some [("")])] } ("x") []).2.mpr (by decide)

/-- C6: blocking the same date and slot twice (the second submission
finding the slot already stored) leaves the stored blocks exactly as after
the first block. -/
theorem block_slot_idempotent (A : Availability) (d t : String) :
    (blockOnServer (blockOnServer A d t) d t).blocks = (blockOnServer A d t).blocks := by
  by_cases ht : t = ""
  · subst ht
    exact blockOnServer_empty_str (blockOnServer A d ("")) d
      (normalizedBlocks_blockOnServer A d (""))
  · obtain ⟨w, hw, htw⟩ := lookup_blockOnServer_mem A d t ht
    exact blockOnServer_of_mem (blockOnServer A d t) d t
      (normalizedBlocks_blockOnServer A d t) w hw htw

/-- C9 counterexample: a weekly `start` that coerces to NaN (for example
the string `"abc"`) is stored as NaN — `Math.max(0, Math.min(23, NaN))` is
NaN — so the stored day violates the claimed bounds. -/
theorem weekly_nan_counterexample :
    ¬ WellFormedDay ((normalizeAvailability
        { weekly := some fun d =>
            if d = 0 then
              some { enabled := false, start := some JsNum.nan
                     endTime := some (JsNum.fin 18) }
            else none
          blocks := none }).weekly 0) := by
  rintro ⟨s, e, hs, -⟩
  have hnan : ((normalizeAvailability
      { weekly := some fun d =>
          if d = 0 then
            some { enabled := false, start := some JsNum.nan
                   endTime := some (JsNum.fin 18) }
          else none
        blocks := none }).weekly 0).start = JsNum.nan := by decide
  rw [hnan] at hs
  exact JsNum.noConfusion hs

/-- Clamping a non-NaN JavaScript number into `[lo, hi]` yields a finite
value in the interval. -/
theorem jsClamp_fin (lo hi : ℚ) (x : JsNum) (hx : x ≠ JsNum.nan) (hlohi : lo ≤ hi) :
    ∃ q : ℚ, jsMax (JsNum.fin lo) (jsMin (JsNum.fin hi) x) = JsNum.fin q ∧
      lo ≤ q ∧ q ≤ hi := by
  cases x with
  | nan => exact absurd rfl hx
  | posInf => exact ⟨max lo hi, rfl, le_max_left _ _, max_le hlohi le_rfl⟩
  | negInf => exact ⟨lo, rfl, le_rfl, hlohi⟩
  | fin q => exact ⟨max lo (min hi q), rfl, le_max_left _ _,
      max_le hlohi (min_le_left _ _)⟩

/-- C9 (amended): whenever every submitted weekly `start`/`end` value
coerces to a non-NaN number (missing days and fields fall back to the
defaults), each stored day has finite `start ∈ [0, 23]`, `end ∈ [1, 24]`
and `start < end`. -/
theorem weekly_template_wellformed (input : AvailInput)
    (h : ∀ d : Fin 7, (weeklyConf input d).start ≠ some JsNum.nan ∧
      (weeklyConf input d).endTime ≠ some JsNum.nan) (d : Fin 7) :
    WellFormedDay ((normalizeAvailability input).weekly d) := by
  obtain ⟨hs, he⟩ := h d
  have hxs : (weeklyConf input d).start.getD (JsNum.fin 8) ≠ JsNum.nan := by
    cases hc : (weeklyConf input d).start with
    | none => simp
    | some v =>
        rw [hc] at hs
        rw [Option.getD_some]
        exact fun h2 => hs (by rw [h2])
  have hxe : (weeklyConf input d).endTime.getD (JsNum.fin 18) ≠ JsNum.nan := by
    cases hc : (weeklyConf input d).endTime with
    | none => simp
    | some v =>
        rw [hc] at he
        rw [Option.getD_some]
        exact fun h2 => he (by rw [h2])
  obtain ⟨s0, hs0, hs1, hs2⟩ := jsClamp_fin 0 23 _ hxs (by norm_num)
  obtain ⟨e0, he0, he1, he2⟩ := jsClamp_fin 1 24 _ hxe (by norm_num)
  refine ⟨s0, max e0 (s0 + 1), hs0, ?_, hs1, hs2, ?_, ?_, ?_⟩
  · show jsMax (jsMax (JsNum.fin 1) (jsMin (JsNum.fin 24)
      ((weeklyConf input d).endTime.getD (JsNum.fin 18))))
      (jsAdd (jsMax (JsNum.fin 0) (jsMin (JsNum.fin 23)
        ((weeklyConf input d).start.getD (JsNum.fin 8)))) (JsNum.fin 1)) =
      JsNum.fin (max e0 (s0 + 1))
    rw [he0, hs0]
    rfl
  · exact le_trans he1 (le_max_left _ _)
  · exact max_le he2 (by linarith)
  · exact lt_of_lt_of_le (by linarith) (le_max_right _ _)

/-- Witness for C9: the default availability payload yields a well-formed
Tuesday. -/
theorem weekly_template_wellformed_witness :
    WellFormedDay ((normalizeAvailability { weekly := none, blocks := none }).weekly 2) :=
  weekly_template_wellformed { weekly := none, blocks := none } (by decide) 2

/-- C7: each admin-level mutating endpoint is a function of the request
body's recognized fields alone — for a fixed environment (clock, id
generator, image store), changing the transport identity (headers, peer
address) or any unread body field (where a pin or credential would sit)
changes neither the response nor the state update; and the PIN comparison
exists only in the client-side gate, which compares the typed pin against
the constant `ADMIN_PIN`. -/
theorem admin_endpoints_ignore_identity (parse : String → Option Int) (env : Env)
    (stA : Availability) (s : SchedState) (inv : List Item) (g : List Photo)
    (av : AvailInput) (bp : ApptPayload) (itm : ItemIn) (du nm idv cap pin : String)
    (e1 e2 h1 h2 : List (String × String)) (a1 a2 : String) :
    apiAvailabilitySet
        { body := { availability := av, extra := e1 }, headers := h1, remoteAddr := a1 } stA =
      apiAvailabilitySet
        { body := { availability := av, extra := e2 }, headers := h2, remoteAddr := a2 } stA ∧
    apiScheduleBook parse env
        { body := { payload := bp, extra := e1 }, headers := h1, remoteAddr := a1 } s =
      apiScheduleBook parse env
        { body := { payload := bp, extra := e2 }, headers := h2, remoteAddr := a2 } s ∧
    apiInventoryUpsert env
        { body := { item := itm, imageDataUrl := du, imageName := nm, extra := e1 }
          headers := h1, remoteAddr := a1 } inv =
      apiInventoryUpsert env
        { body := { item := itm, imageDataUrl := du, imageName := nm, extra := e2 }
          headers := h2, remoteAddr := a2 } inv ∧
    apiInventoryDelete
        { body := { id := idv, extra := e1 }, headers := h1, remoteAddr := a1 } inv =
      apiInventoryDelete
        { body := { id := idv, extra := e2 }, headers := h2, remoteAddr := a2 } inv ∧
    apiGalleryAdd env
        { body := { caption := cap, imageDataUrl := du, imageName := nm, extra := e1 }
          headers := h1, remoteAddr := a1 } g =
      apiGalleryAdd env
        { body := { caption := cap, imageDataUrl := du, imageName := nm, extra := e2 }
          headers := h2, remoteAddr := a2 } g ∧
    apiGalleryDelete
        { body := { id := idv, extra := e1 }, headers := h1, remoteAddr := a1 } g =
      apiGalleryDelete
        { body := { id := idv, extra := e2 }, headers := h2, remoteAddr := a2 } g ∧
    (adminGate pin = true ↔ pin.trim = ADMIN_PIN) :=
  ⟨rfl, rfl, rfl, rfl, rfl, rfl, beq_iff_eq⟩

end DuneSea
